import Mathlib

set_option autoImplicit false

/-!
Verification of the GehChat backend (Python) against its specification.

Python strings are modelled as `List Char` (sequences of code points),
byte strings as `List Nat`.  Each definition below embeds the Python
function named in its doc comment; external library primitives
(AES, base64, UTF-8, json, sockets, randomness) are modelled as explicit
parameters, as noted at each use.
-/

namespace GehChat

/-- A Python `str`: a sequence of Unicode code points. -/
abbrev Str := List Char

/-- A Python `bytes` value: a sequence of byte values. -/
abbrev Bytes := List Nat

/-- Coerce a Lean string literal to the `Str` model. -/
def str (s : String) : Str := s.data

/-! ## Python string primitives -/

/-- Python lexicographic string comparison `a <= b` (by code point),
as used by `sorted` in `encryption_service.py`. -/
def strLe : Str → Str → Bool
  | [], _ => true
  | _ :: _, [] => false
  | a :: as, b :: bs =>
    if a.toNat < b.toNat then true
    else if b.toNat < a.toNat then false
    else strLe as bs

/-- Python `big.startswith(small)`: `small` is a prefix of `big`. -/
def isPre : Str → Str → Bool
  | [], _ => true
  | _ :: _, [] => false
  | a :: as, b :: bs => a == b && isPre as bs

/-- Python `big.endswith(small)`: `small` is a suffix of `big`. -/
def isSuf (small big : Str) : Bool :=
  isPre small.reverse big.reverse

/-- Python `small in big`: substring containment. -/
def hasSub (small : Str) : Str → Bool
  | [] => isPre small []
  | c :: rest => isPre small (c :: rest) || hasSub small rest

/-- Python `line.count(c)` for a single-character needle. -/
def countChar (sep : Char) : Str → Nat
  | [] => 0
  | c :: rest => (if c = sep then 1 else 0) + countChar sep rest

/-- Python `line.split(sep)` for a one-character separator: keeps empty
fields, never returns an empty list (`irc_parser.py` uses `split(" ")`). -/
def splitChar (sep : Char) : Str → List Str
  | [] => [[]]
  | c :: rest =>
    if c = sep then [] :: splitChar sep rest
    else
      match splitChar sep rest with
      | [] => [[c]]
      | t :: ts => (c :: t) :: ts

/-- Python `line.split(sep, maxsplit)` for a one-character separator:
at most `n` splits, the remainder (separators included) is the last field. -/
def splitCharN (sep : Char) : Nat → Str → List Str
  | _, [] => [[]]
  | 0, l => [l]
  | n + 1, c :: rest =>
    if c = sep then [] :: splitCharN sep n rest
    else
      match splitCharN sep (n + 1) rest with
      | [] => [[c]]
      | t :: ts => (c :: t) :: ts

/-- The characters Python `str.split()` (no arguments) treats as
whitespace, restricted to the ASCII ones relevant to IRC traffic. -/
def pySpace (c : Char) : Bool :=
  c == ' ' || c == '\t' || c == '\n' || c == '\r' || c == '\x0b' || c == '\x0c'

/-- Helper for `splitWs`: `acc` is the current word, reversed. -/
def splitWsAux : Str → Str → List Str
  | [], acc => if acc = [] then [] else [acc.reverse]
  | c :: rest, acc =>
    if pySpace c then
      if acc = [] then splitWsAux rest []
      else acc.reverse :: splitWsAux rest []
    else splitWsAux rest (c :: acc)

/-- Python `s.split()` with no arguments: split on whitespace runs,
dropping empty fields. -/
def splitWs (l : Str) : List Str := splitWsAux l []

/-- Python `user.lstrip("@+")`: drop leading `@` and `+` characters
(`irc_parser.py` line 87). -/
def lstripMarks : Str → Str
  | [] => []
  | c :: rest => if c = '@' ∨ c = '+' then lstripMarks rest else c :: rest

/-! ## Python dict / set primitives (used by the key store) -/

/-- Lookup in a Python `dict` modelled as an association list. -/
def alookup {α : Type} (k : Str) : List (Str × α) → Option α
  | [] => none
  | (k', v) :: rest => if k' = k then some v else alookup k rest

/-- Python `d[k] = v`: replace in place when the key exists, append
otherwise (insertion-ordered dict semantics). -/
def aset {α : Type} (k : Str) (v : α) : List (Str × α) → List (Str × α)
  | [] => [(k, v)]
  | (k', v') :: rest =>
    if k' = k then (k, v) :: rest else (k', v') :: aset k v rest

/-- Python `set.add` on a set modelled as a duplicate-free list. -/
def sadd (x : Str) (s : List Str) : List Str :=
  if x ∈ s then s else s ++ [x]

/-! ## IRC line parser (`irc_parser.py`) -/

/-- Embeds the dataclass `ParsedIRCMessage` (`irc_parser.py` lines 14-21).
The Python field `prefix` is called `pfx` here. -/
structure ParsedIRCMessage where
  pfx : Str
  command : Str
  params : List Str
  raw : Str
  deriving DecidableEq

/-- A JSON value of the flat wire-envelope fragment: a string or a
boolean (the spec's §3 envelope carries base64 strings plus the literal
`isEncrypted: true`, and Python's `json.dumps` of the envelope dict
emits exactly strings and booleans). -/
inductive JValue where
  | jstr (s : Str)
  | jbool (b : Bool)
  deriving DecidableEq

/-- Embeds dataclass `IRCPrivateMessage` (`irc_parser.py` lines 24-32).
`encrypted_data` holds the decoded flat JSON object. -/
structure IRCPrivateMessage where
  sender : Str
  target : Str
  content : Str
  is_encrypted : Bool
  encrypted_data : Option (List (Str × JValue))
  deriving DecidableEq

/-- Embeds `parse_irc_line` (`irc_parser.py` lines 35-58): split the line
on single spaces; fewer than two fields is a parse miss; a first field
starting with `:` is the prefix. -/
def parse_irc_line (line : Str) : Option ParsedIRCMessage :=
  match splitChar ' ' line with
  | p0 :: p1 :: rest =>
    if isPre [':'] p0 then some ⟨p0.tail, p1, rest, line⟩
    else some ⟨[], p0, p1 :: rest, line⟩
  | _ => none

/-- Embeds `extract_sender_from_prefix` (`irc_parser.py` lines 61-71):
`prefix.split("!")[0] if "!" in prefix else prefix`. -/
def extract_sender (pfx : Str) : Str :=
  if hasSub ['!'] pfx then (splitChar '!' pfx).headD [] else pfx

/-- Embeds `parse_names_list` (`irc_parser.py` lines 74-87):
`line.split(":", 2)[2].split() if line.count(":") >= 2 else []`, then
strip leading `@`/`+` from each name and drop names that become empty. -/
def parse_names_list (line : Str) : List Str :=
  let users :=
    if countChar ':' line ≥ 2 then splitWs ((splitCharN ':' 2 line).getD 2 [])
    else []
  users.filterMap (fun u =>
    let v := lstripMarks u
    if v = [] then none else some v)

/-- JSON insignificant whitespace (RFC 8259, what Python's `json.loads`
skips between tokens): space, tab, line feed, carriage return. -/
def skipWs (s : Str) : Str :=
  s.dropWhile (fun c => c == ' ' || c == '\t' || c == '\n' || c == '\r')

/-- Body of a JSON string literal up to the closing quote.  An escape
sequence or a raw control character makes the model refuse (Python
would interpret the escape or raise there, so every accepted input
decodes identically in Python). -/
def parseJStringBody : Str → Option (Str × Str)
  | [] => none
  | c :: rest =>
    if c = '"' then some ([], rest)
    else if c = '\\' ∨ c.toNat < 32 then none
    else (parseJStringBody rest).map (fun p => (c :: p.1, p.2))

/-- A JSON string literal; see `parseJStringBody`. -/
def parseJString : Str → Option (Str × Str)
  | '"' :: rest => parseJStringBody rest
  | _ => none

/-- A JSON value of the fragment: a string literal or a boolean. -/
def parseJValue (s : Str) : Option (JValue × Str) :=
  match parseJString s with
  | some (v, rest) => some (JValue.jstr v, rest)
  | none =>
    if isPre (str "true") s then some (JValue.jbool true, s.drop 4)
    else if isPre (str "false") s then some (JValue.jbool false, s.drop 5)
    else none

/-- Member list of a JSON object after the opening brace, fuelled for
termination: whitespace-separated `"key": value` pairs separated by
`,` and closed by `}`, with only whitespace allowed after — exactly the
object grammar restricted to the values of `parseJValue`. -/
def parsePairsF : Nat → Str → Option (List (Str × JValue))
  | 0, _ => none
  | fuel + 1, l =>
    match parseJString (skipWs l) with
    | none => none
    | some (k, r1) =>
      match skipWs r1 with
      | ':' :: r2 =>
        match parseJValue (skipWs r2) with
        | none => none
        | some (v, r3) =>
          match skipWs r3 with
          | ',' :: r4 => (parsePairsF fuel r4).map (fun t => (k, v) :: t)
          | '}' :: r5 => if skipWs r5 = [] then some [(k, v)] else none
          | _ => none
      | _ => none

/-- Modelled from the spec: `json.loads` restricted to flat JSON
objects whose values are strings or booleans — the envelope shape of §3
(`encryptedContent`/`iv` base64 strings plus `isEncrypted: true`) and
exactly what the program's own `json.dumps` emits for it, whitespace
and the `true` literal included.  Any input this model accepts is
decoded identically by Python's full `json.loads`; on inputs outside
the fragment (numbers, nesting, escapes) it conservatively returns
`none`, which the caller treats like a decode error. -/
def jsonLoadsFlat (s : Str) : Option (List (Str × JValue)) :=
  match skipWs s with
  | '{' :: rest =>
    match skipWs rest with
    | '}' :: r2 => if skipWs r2 = [] then some [] else none
    | _ => parsePairsF (rest.length + 1) rest
  | _ => none

/-- Whether a decoded JSON object has a given key, embedding
`"encrypted_content" in encrypted_obj` on the decoded dict. -/
def hasKey (obj : List (Str × JValue)) (k : Str) : Bool :=
  (alookup k obj).isSome

/-- Embeds `parse_privmsg` (`irc_parser.py` lines 90-130): sender from
the prefix, target from the first parameter, content from the text after
the second `:` of the raw line; a content that starts with `{`, contains
the substring `encrypted_content` and decodes to a JSON object with
both `encrypted_content` and `iv` keys is flagged encrypted and its
displayed content replaced by the placeholder `[Encrypted message]`. -/
def parse_privmsg (pfx : Str) (params : List Str) (line : Str) :
    IRCPrivateMessage :=
  let sender := extract_sender pfx
  let target := params.headD []
  let message :=
    if countChar ':' line ≥ 2 then (splitCharN ':' 2 line).getD 2 [] else []
  let plain : IRCPrivateMessage := ⟨sender, target, message, false, none⟩
  if isPre ['{'] message && hasSub (str "encrypted_content") message then
    match jsonLoadsFlat message with
    | none => plain
    | some obj =>
      if hasKey obj (str "encrypted_content") && hasKey obj (str "iv") then
        ⟨sender, target, str "[Encrypted message]", true, some obj⟩
      else plain
  else plain

/-- The encrypted-envelope detection performed by `parse_privmsg`
(`irc_parser.py` lines 112-118), as one predicate: the content starts
with `{`, contains the substring `encrypted_content`, and decodes to a
JSON object carrying both `encrypted_content` and `iv` keys. -/
def envelopeDetected (message : Str) : Bool :=
  (isPre ['{'] message && hasSub (str "encrypted_content") message) &&
    (match jsonLoadsFlat message with
     | some obj =>
       hasKey obj (str "encrypted_content") && hasKey obj (str "iv")
     | none => false)

/-! ## Pairwise session key store (`encryption_service.py`) -/

/-- The canonical pair key of `encryption_service.py` (lines 60-61 and
86-87, 145-146, 221-222): `users = sorted([u1, u2])` followed by
`f"{users[0]}_{users[1]}"`. -/
def pairKey (u1 u2 : Str) : Str :=
  if strLe u1 u2 then u1 ++ '_' :: u2 else u2 ++ '_' :: u1

/-- Embeds the mutable state of `SignalProtocolService.__init__`
(`encryption_service.py` lines 25-36): `session_keys`,
`frontend_users` and `pending_sessions`. -/
structure ServiceState where
  session_keys : List (Str × Bytes)
  frontend_users : List Str
  pending_sessions : List (Str × List Str)
  deriving DecidableEq

/-- Embeds `register_user` (lines 38-51): adds the nickname to
`frontend_users`.  The returned device id (a nickname/timestamp string)
does not touch the state and is left to the caller. -/
def register_user (s : ServiceState) (nickname : Str) : ServiceState :=
  { s with frontend_users := sadd nickname s.frontend_users }

/-- Embeds `establish_session` (lines 53-70): create a key for the
canonical pair only when absent.  `fresh` stands for the `os.urandom(32)`
sample drawn at line 65. -/
def establish_session (s : ServiceState) (user1 user2 : Str)
    (fresh : Bytes) : ServiceState × Bool :=
  let session_key := pairKey user1 user2
  match alookup session_key s.session_keys with
  | none =>
    ({ s with session_keys := aset session_key fresh s.session_keys }, true)
  | some _ => (s, false)

/-- The external cryptographic and encoding primitives used by
`encrypt_message` / `decrypt_message`: AES-256-CBC from the
`cryptography` package, base64, and the UTF-8 codec.  They are library
code, not part of this repository; the model carries them as parameters
together with the inversion laws they are documented to satisfy.
`aesCbcEnc`/`aesCbcDec` take key, IV and data. -/
structure CryptoPrims where
  utf8Encode : Str → Bytes
  utf8Decode : Bytes → Option Str
  aesCbcEnc : Bytes → Bytes → Bytes → Bytes
  aesCbcDec : Bytes → Bytes → Bytes → Bytes
  b64encode : Bytes → Str
  b64decode : Str → Bytes
  utf8_round : ∀ s, utf8Decode (utf8Encode s) = some s
  aes_round : ∀ k iv m, aesCbcDec k iv (aesCbcEnc k iv m) = m
  b64_round : ∀ bs, b64decode (b64encode bs) = bs

/-- Embeds the encrypted wire envelope built at
`encryption_service.py` lines 114-118. -/
structure EncryptedEnvelope where
  encrypted_content : Str
  iv : Str
  is_encrypted : Bool
  deriving DecidableEq

/-- Embeds `encrypt_message` (lines 72-129): canonical pair key lookup
(absent means send unencrypted, return `none`), PKCS#7 padding of the
UTF-8 bytes to the 16-byte block, AES-CBC encryption under the stored
key, base64 wrapping.  `iv` stands for the `os.urandom(16)` sample of
line 99.  The state is read, never written. -/
def encrypt_message (P : CryptoPrims) (s : ServiceState)
    (sender recipient : Str) (message : Str) (iv : Bytes) :
    Option EncryptedEnvelope :=
  match alookup (pairKey sender recipient) s.session_keys with
  | none => none
  | some key =>
    let plaintext := P.utf8Encode message
    let padding_length := 16 - plaintext.length % 16
    let padded_plaintext :=
      plaintext ++ List.replicate padding_length padding_length
    let ciphertext := P.aesCbcEnc key iv padded_plaintext
    some ⟨P.b64encode ciphertext, P.b64encode iv, true⟩

/-- Embeds `decrypt_message` (lines 131-180): pair key lookup (absent →
`none`), base64 unwrapping, AES-CBC decryption, then PKCS#7 unpadding
driven by the trailing byte.  The Python `except` clauses that map any
failure to `None` appear as: the empty-ciphertext `IndexError` of
`padded_plaintext[-1]` (the `getLast?` miss), the `[:-0]` slice giving
`b""`, and a UTF-8 decode failure (`utf8Decode` returning `none`). -/
def decrypt_message (P : CryptoPrims) (s : ServiceState)
    (sender recipient : Str) (encrypted_data : EncryptedEnvelope) :
    Option Str :=
  match alookup (pairKey sender recipient) s.session_keys with
  | none => none
  | some key =>
    let iv := P.b64decode encrypted_data.iv
    let ciphertext := P.b64decode encrypted_data.encrypted_content
    let padded_plaintext := P.aesCbcDec key iv ciphertext
    match padded_plaintext.getLast? with
    | none => none
    | some padding_length =>
      let plaintext :=
        if padding_length = 0 then []
        else padded_plaintext.take (padded_plaintext.length - padding_length)
      P.utf8Decode plaintext

/-- Embeds `is_frontend_user` (lines 182-188). -/
def is_frontend_user (s : ServiceState) (nickname : Str) : Bool :=
  nickname ∈ s.frontend_users

/-- The key-selection predicate of `cleanup_session` (lines 194-198):
`key.startswith(f"{user}_") or key.endswith(f"_{user}")`. -/
def namesUser (user key : Str) : Bool :=
  isPre (user ++ ['_']) key || isSuf ('_' :: user) key

/-- Embeds `cleanup_session` (lines 190-208): delete every session key
matching `namesUser`, then discard the user from `frontend_users`. -/
def cleanup_session (s : ServiceState) (user : Str) : ServiceState :=
  let s := { s with
    session_keys := s.session_keys.filter (fun kv => !namesUser user kv.1) }
  if user ∈ s.frontend_users then
    { s with frontend_users := s.frontend_users.filter (fun u => u ≠ user) }
  else s

/-- Embeds `get_unencrypted_frontend_users` (lines 210-227): the known
users other than `for_user` having no pair key with `for_user`. -/
def get_unencrypted_frontend_users (s : ServiceState) (for_user : Str) :
    List Str :=
  s.frontend_users.filter (fun other_user =>
    other_user ≠ for_user &&
      (alookup (pairKey for_user other_user) s.session_keys).isNone)

/-- Embeds `mark_session_confirmed` (lines 229-235): ensure a pending
set exists for `user`, then discard `other_user` from it. -/
def mark_session_confirmed (s : ServiceState) (user other_user : Str) :
    ServiceState :=
  let cur := (alookup user s.pending_sessions).getD []
  let p := aset user (cur.filter (fun u => u ≠ other_user)) s.pending_sessions
  { s with pending_sessions := p }

/-- Embeds `add_pending_session` (lines 237-243): ensure a pending set
exists for `user`, then add `other_user` to it. -/
def add_pending_session (s : ServiceState) (user other_user : Str) :
    ServiceState :=
  let cur := (alookup user s.pending_sessions).getD []
  { s with pending_sessions := aset user (sadd other_user cur) s.pending_sessions }

/-- Embeds `has_pending_sessions` (lines 245-247). -/
def has_pending_sessions (s : ServiceState) (user : Str) : Bool :=
  match alookup user s.pending_sessions with
  | none => false
  | some l => decide (l ≠ [])

/-! ## Bridge session (`irc_bridge.py`) and message handlers
(`message_handlers.py`) -/

/-- Client-facing events, embedding the dicts passed to
`send_to_client`.  The `error` event's content (the formatted exception
text of `irc_bridge.py` line 122) is runtime data and not modelled. -/
inductive ClientEvent where
  | system (content : Str)
  | error
  | setup_encryption (users : List Str)
  | message (sender target content : Str) (is_private is_encrypted : Bool)
  | disconnected
  deriving DecidableEq

/-- Embeds the per-session mutable fields of `IRCBridge.__init__`
(`irc_bridge.py` lines 43-57).  `irc_socket` records whether
`self.irc_socket` is non-`None`; `reader_task` whether a read-loop task
was started.  `wireLog` collects the lines handed to the IRC socket by
`send_irc_raw` (without the CRLF appended on the wire) and `clientLog`
the events handed to `send_to_client` (delivery is best-effort in the
source; the log records the attempts). -/
structure BridgeState where
  server : Str
  port : Nat
  channel : Str
  nickname : Option Str
  device_id : Option Str
  connected : Bool
  reader_task : Bool
  is_frontend_user : Bool
  irc_socket : Bool
  wireLog : List Str
  clientLog : List ClientEvent
  deriving DecidableEq

/-- Fault model for the socket operations of `irc_bridge.py`:
whether `socket.socket(...)` raises, whether `connect` raises
(including the 30 s timeout), and whether `socket.send` raises. -/
structure Faults where
  socketCreateFails : Bool
  socketConnectFails : Bool
  socketSendFails : Bool
  deriving DecidableEq

/-- Embeds `send_irc_raw` (`irc_bridge.py` lines 188-200): a no-op
without a socket; a send exception is caught and logged, so a faulty
send leaves every field unchanged and raises nothing. -/
def send_irc_raw (b : BridgeState) (f : Faults) (message : Str) :
    BridgeState :=
  if b.irc_socket then
    if f.socketSendFails then b
    else { b with wireLog := b.wireLog ++ [message] }
  else b

/-- Embeds `send_to_client` (lines 325-340): record the attempted event
(the source swallows websocket errors). -/
def send_to_client (b : BridgeState) (e : ClientEvent) : BridgeState :=
  { b with clientLog := b.clientLog ++ [e] }

/-- Embeds `_update_connection_params` (lines 126-139). -/
def update_connection_params (b : BridgeState) (server : Str) (port : Nat)
    (channel nickname : Str) (ifu : Bool) : BridgeState :=
  { b with
    server := server
    port := port
    channel := channel
    nickname := some nickname
    is_frontend_user := ifu }

/-- Embeds `_setup_encryption_for_user` (lines 141-167): register the
user, prompt the client with the list of not-yet-keyed known users (when
non-empty) and mark those sessions pending in both directions.  `dev`
stands for the synthesized timestamp-based device id of
`register_user`. -/
def setup_encryption_for_user (svc : ServiceState) (b : BridgeState)
    (nickname dev : Str) : ServiceState × BridgeState :=
  let svc := register_user svc nickname
  let b := { b with device_id := some dev }
  let others := get_unencrypted_frontend_users svc nickname
  if others = [] then (svc, b)
  else
    let b := send_to_client b (ClientEvent.setup_encryption others)
    let svc := others.foldl
      (fun acc other_user =>
        add_pending_session (add_pending_session acc nickname other_user)
          other_user nickname)
      svc
    (svc, b)

/-- Embeds `_create_irc_socket` (lines 169-179): on a creation fault the
socket field stays `None`; on a connect fault the (unconnected) socket
object has already been assigned.  The Bool is success. -/
def create_irc_socket (b : BridgeState) (f : Faults) : BridgeState × Bool :=
  if f.socketCreateFails then (b, false)
  else
    let b := { b with irc_socket := true }
    if f.socketConnectFails then (b, false) else (b, true)

/-- Embeds `_send_irc_handshake` (lines 181-186): the `NICK` and `USER`
lines, both through the exception-swallowing `send_irc_raw`. -/
def send_irc_handshake (b : BridgeState) (f : Faults) (nickname : Str) :
    BridgeState :=
  let b := send_irc_raw b f (str "NICK " ++ nickname)
  send_irc_raw b f
    (str "USER " ++ nickname ++ str " 0 * :" ++ nickname)

/-- Embeds `connect_to_irc` (lines 59-124): update the parameters, set
up encryption for a frontend user, open the socket, send the handshake,
flip `connected`, start the reader task and notify the client; the
`except` clause (reached exactly when socket creation or connect raises)
sends one error event and returns `False`. -/
def connect_to_irc (svc : ServiceState) (b : BridgeState) (server : Str)
    (port : Nat) (channel nickname : Str) (ifu : Bool) (dev : Str)
    (f : Faults) : ServiceState × BridgeState × Bool :=
  let b := update_connection_params b server port channel nickname ifu
  let p := if ifu then setup_encryption_for_user svc b nickname dev
           else (svc, b)
  let q := create_irc_socket p.2 f
  if q.2 = false then (p.1, send_to_client q.1 ClientEvent.error, false)
  else
    let b := send_irc_handshake q.1 f nickname
    let b := { b with connected := true }
    let b := { b with reader_task := true }
    let b := send_to_client b
      (ClientEvent.system
        (str "Connected to IRC server " ++ server ++ ':' :: (Nat.repr port).data))
    (p.1, b, true)

/-- Embeds the fields read from the client `message` payload by
`handle_message` (`message_handlers.py` lines 83-98): `data.get`
defaults appear as `Option`.  `encrypted_data` carries the
`json.dumps` serialization of the (non-empty) envelope dict when one is
present; the dict itself is opaque to the handler. -/
structure MessageData where
  target : Option Str
  content : Str
  is_encrypted : Bool
  encrypted_data : Option Str
  deriving DecidableEq

/-- The PRIVMSG wire line `f"PRIVMSG {target} :{payload}"` of
`message_handlers.py` lines 110 and 114. -/
def privmsgLine (target payload : Str) : Str :=
  str "PRIVMSG " ++ target ++ str " :" ++ payload

/-- Embeds `handle_message` (`message_handlers.py` lines 83-126): strip
one leading `@` from the target, drop the message when not connected,
relay the client-encrypted envelope verbatim for a private target, or
send the plain content; either way echo a message event back. -/
def handle_message (b : BridgeState) (f : Faults) (d : MessageData) :
    BridgeState :=
  let target := d.target.getD b.channel
  let target := match target with
    | '@' :: rest => rest
    | t => t
  if !b.connected then b
  else
    let is_private := target ≠ b.channel
    let b :=
      if d.is_encrypted && d.encrypted_data.isSome && is_private then
        send_irc_raw b f (privmsgLine target (d.encrypted_data.getD []))
      else
        send_irc_raw b f (privmsgLine target d.content)
    send_to_client b
      (ClientEvent.message (b.nickname.getD []) target d.content
        (decide is_private) d.is_encrypted)

/-! ## A concrete instantiation of the external primitives

A toy instantiation of `CryptoPrims` (identity cipher, code-point codec,
unary byte-list encoding) showing the assumed inversion laws are
satisfiable; it is used to instantiate theorems on concrete inputs. -/

/-- Injective encoding of a byte list into a string: each value `n`
becomes `n` copies of `a` followed by one `b`. -/
def unaryEnc : Bytes → Str
  | [] => []
  | n :: ns => List.replicate n 'a' ++ 'b' :: unaryEnc ns

/-- Left inverse of `unaryEnc`; `acc` counts the `a`s read so far. -/
def unaryDecAux : Str → Nat → Bytes
  | [], _ => []
  | c :: rest, acc =>
    if c = 'b' then acc :: unaryDecAux rest 0 else unaryDecAux rest (acc + 1)

/-- Decode a `unaryEnc` string back to the byte list. -/
def unaryDec (s : Str) : Bytes := unaryDecAux s 0

/-- The toy `CryptoPrims` instantiation. -/
def idPrims : CryptoPrims where
  utf8Encode s := s.map Char.toNat
  utf8Decode bs := some (bs.map Char.ofNat)
  aesCbcEnc _ _ m := m
  aesCbcDec _ _ m := m
  b64encode := unaryEnc
  b64decode := unaryDec
  utf8_round := by
    intro s
    induction s with
    | nil => rfl
    | cons c cs ih =>
      simp only [List.map_cons, Char.ofNat_toNat, Option.some.injEq] at ih ⊢
      simp [ih]
  aes_round := by intro k iv m; rfl
  b64_round := by
    intro bs
    have key : ∀ (n : Nat) (rest : Str) (acc : Nat),
        unaryDecAux (List.replicate n 'a' ++ 'b' :: rest) acc =
          (acc + n) :: unaryDecAux rest 0 := by
      intro n
      induction n with
      | zero => intro rest acc; simp [unaryDecAux]
      | succ m ih =>
        intro rest acc
        rw [List.replicate_succ, List.cons_append]
        show unaryDecAux _ _ = _
        rw [unaryDecAux]
        rw [if_neg (by decide)]
        rw [ih rest (acc + 1)]
        congr 1
        omega
    show unaryDec (unaryEnc bs) = bs
    unfold unaryDec
    induction bs with
    | nil => rfl
    | cons n ns ih =>
      rw [unaryEnc, key n (unaryEnc ns) 0, Nat.zero_add, ih]

/-- An empty key store, for concrete instantiations. -/
def svc0 : ServiceState := ⟨[], [], []⟩

/-- A freshly constructed (`Idle`) bridge session, for concrete
instantiations. -/
def b0 : BridgeState :=
  ⟨str "irc.example", 6667, str "#geh", none, none, false, false, false,
    false, [], []⟩

/-- An `Active` bridge session, for concrete instantiations. -/
def bActive : BridgeState :=
  ⟨str "irc.example", 6667, str "#geh", some (str "alice"), none, true,
    true, true, true, [], []⟩

/-- A fault-free run of the socket operations. -/
def noFaults : Faults := ⟨false, false, false⟩

/-- All stored session keys are 256-bit (32-byte) secrets. -/
def keyInv (s : ServiceState) : Prop :=
  ∀ p ∈ s.session_keys, (Prod.snd p).length = 32

/-- A raw IRC private-message line
`:nick!user@host PRIVMSG target :text`. -/
def privmsgWire (nick user host target text : Str) : Str :=
  (':' :: (nick ++ '!' :: (user ++ '@' :: host))) ++
    (' ' :: (str "PRIVMSG" ++ (' ' :: (target ++ (' ' :: (':' :: text))))))

/-! ## Helper lemmas -/

theorem strLe_total (a b : Str) : strLe a b = true ∨ strLe b a = true := by
  induction a generalizing b with
  | nil => left; rfl
  | cons x xs ih =>
    cases b with
    | nil => right; rfl
    | cons y ys =>
      by_cases h1 : x.toNat < y.toNat
      · left; simp [strLe, h1]
      · by_cases h2 : y.toNat < x.toNat
        · right; simp [strLe, h2]
        · rcases ih ys with h | h
          · left; simp [strLe, h1, h2, h]
          · right; simp [strLe, h1, h2, h]

theorem strLe_antisymm {a b : Str} (h1 : strLe a b = true)
    (h2 : strLe b a = true) : a = b := by
  induction a generalizing b with
  | nil =>
    cases b with
    | nil => rfl
    | cons y ys => simp [strLe] at h2
  | cons x xs ih =>
    cases b with
    | nil => simp [strLe] at h1
    | cons y ys =>
      by_cases hxy : x.toNat < y.toNat
      · simp [strLe, hxy, Nat.lt_asymm hxy] at h2
      · by_cases hyx : y.toNat < x.toNat
        · simp [strLe, hxy, hyx] at h1
        · have hx : x = y :=
            Char.ext (UInt32.ext (show x.toNat = y.toNat by omega))
          subst hx
          simp [strLe, hxy, hyx] at h1 h2
          rw [ih h1 h2]

theorem pairKey_comm (a b : Str) : pairKey a b = pairKey b a := by
  unfold pairKey
  by_cases h1 : strLe a b = true
  · by_cases h2 : strLe b a = true
    · rw [strLe_antisymm h1 h2]
    · simp [h1, h2]
  · rcases strLe_total a b with h | h2
    · exact absurd h h1
    · simp [h1, h2]

theorem alookup_aset_self {α : Type} (k : Str) (v : α)
    (m : List (Str × α)) : alookup k (aset k v m) = some v := by
  induction m with
  | nil => simp [aset, alookup]
  | cons p rest ih =>
    by_cases h : p.1 = k
    · simp [aset, h, alookup]
    · simp [aset, h, alookup, ih]

theorem mem_aset {α : Type} {k : Str} {v : α} {m : List (Str × α)}
    {p : Str × α} (h : p ∈ aset k v m) : p = (k, v) ∨ p ∈ m := by
  induction m with
  | nil => simp [aset] at h; simp [h]
  | cons q rest ih =>
    by_cases hq : q.1 = k
    · simp only [aset, if_pos hq] at h
      rcases List.mem_cons.mp h with h | h
      · left; exact h
      · right; exact List.mem_cons_of_mem _ h
    · simp only [aset, if_neg hq] at h
      rcases List.mem_cons.mp h with h | h
      · right; exact h ▸ List.mem_cons_self _ _
      · rcases ih h with h' | h'
        · left; exact h'
        · right; exact List.mem_cons_of_mem _ h'

theorem alookup_filter_not {α : Type} (pred : Str → Bool) (k : Str)
    (l : List (Str × α)) (hk : pred k = true) :
    alookup k (l.filter (fun kv => !pred kv.1)) = none := by
  induction l with
  | nil => rfl
  | cons p rest ih =>
    by_cases hp : pred p.1 = true
    · simp [List.filter, hp, ih]
    · have hne : p.1 ≠ k := fun he => hp (he ▸ hk)
      simp [List.filter, Bool.not_eq_true', Bool.eq_false_iff.mpr hp, alookup,
        hne, ih]

theorem isPre_append (a b : Str) : isPre a (a ++ b) = true := by
  induction a with
  | nil => rfl
  | cons x xs ih => simp [isPre, ih]

theorem isSuf_append (a b : Str) : isSuf b (a ++ b) = true := by
  unfold isSuf
  rw [List.reverse_append]
  exact isPre_append b.reverse a.reverse

theorem namesUser_pairKey {a b u : Str} (h : a = u ∨ b = u) :
    namesUser u (pairKey a b) = true := by
  have key : ∀ c : Str, namesUser u (pairKey u c) = true := by
    intro c
    unfold pairKey namesUser
    by_cases hle : strLe u c = true
    · rw [if_pos hle]
      have : u ++ '_' :: c = (u ++ ['_']) ++ c := by simp
      rw [this, isPre_append]
      rfl
    · rw [if_neg hle]
      rw [isSuf_append c ('_' :: u)]
      simp
  rcases h with h | h
  · subst h; exact key b
  · subst h; rw [pairKey_comm]; exact key a

theorem establish_session_lookup (s : ServiceState) (u1 u2 : Str)
    (fresh : Bytes) : ∃ k, alookup (pairKey u1 u2)
      ((establish_session s u1 u2 fresh).1).session_keys = some k := by
  cases h : alookup (pairKey u1 u2) s.session_keys with
  | none => exact ⟨fresh, by simp [establish_session, h, alookup_aset_self]⟩
  | some k => exact ⟨k, by simp [establish_session, h]⟩

theorem splitChar_ne_nil (sep : Char) (l : Str) : splitChar sep l ≠ [] := by
  cases l with
  | nil => simp [splitChar]
  | cons c rest =>
    rw [splitChar]
    by_cases h : c = sep
    · simp [h]
    · rw [if_neg h]
      cases splitChar sep rest <;> simp

theorem length_splitChar (sep : Char) (l : Str) :
    (splitChar sep l).length = countChar sep l + 1 := by
  induction l with
  | nil => rfl
  | cons c rest ih =>
    rw [splitChar, countChar]
    by_cases h : c = sep
    · simp [h, ih]; omega
    · rw [if_neg h]
      cases hs : splitChar sep rest with
      | nil => exact absurd hs (splitChar_ne_nil sep rest)
      | cons t ts =>
        rw [hs] at ih
        simp at ih
        simp [h, ih]

theorem countChar_pos {c : Char} {l : Str} (h : c ∈ l) :
    1 ≤ countChar c l := by
  induction l with
  | nil => cases h
  | cons x rest ih =>
    rw [countChar]
    rcases List.mem_cons.mp h with h' | h'
    · rw [if_pos h'.symm]; omega
    · have := ih h'; omega

theorem nmem_append {c : Char} {a b : Str} (ha : c ∉ a) (hb : c ∉ b) :
    c ∉ a ++ b := by
  intro h
  rcases List.mem_append.mp h with h | h
  · exact ha h
  · exact hb h

theorem nmem_cons {c d : Char} {a : Str} (hcd : c ≠ d) (ha : c ∉ a) :
    c ∉ d :: a := by
  intro h
  rcases List.mem_cons.mp h with h | h
  · exact hcd h
  · exact ha h

theorem splitChar_no_sep {sep : Char} {l : Str} (h : sep ∉ l) :
    splitChar sep l = [l] := by
  induction l with
  | nil => rfl
  | cons c rest ih =>
    have hc : c ≠ sep := fun he => h (he ▸ List.mem_cons_self _ _)
    have hrest : sep ∉ rest := fun hm => h (List.mem_cons_of_mem _ hm)
    rw [splitChar, if_neg hc, ih hrest]

theorem splitChar_append {sep : Char} {a : Str} (b : Str) (h : sep ∉ a) :
    splitChar sep (a ++ sep :: b) = a :: splitChar sep b := by
  induction a with
  | nil => simp [splitChar]
  | cons c rest ih =>
    have hc : c ≠ sep := fun he => h (he ▸ List.mem_cons_self _ _)
    have hrest : sep ∉ rest := fun hm => h (List.mem_cons_of_mem _ hm)
    rw [List.cons_append, splitChar, if_neg hc, ih hrest]

theorem splitCharN_zero (sep : Char) (l : Str) : splitCharN sep 0 l = [l] := by
  cases l <;> rfl

theorem splitCharN_cons_sep (sep : Char) (n : Nat) (l : Str) :
    splitCharN sep (n + 1) (sep :: l) = [] :: splitCharN sep n l := by
  rw [splitCharN, if_pos rfl]

theorem splitCharN_ne_nil (sep : Char) (n : Nat) (l : Str) :
    splitCharN sep n l ≠ [] := by
  cases l with
  | nil => cases n <;> simp [splitCharN]
  | cons c rest =>
    cases n with
    | zero => simp [splitCharN]
    | succ m =>
      rw [splitCharN]
      by_cases h : c = sep
      · simp [h]
      · rw [if_neg h]
        cases splitCharN sep (m + 1) rest <;> simp

theorem splitCharN_append {sep : Char} {a : Str} (n : Nat) (b : Str)
    (h : sep ∉ a) :
    splitCharN sep (n + 1) (a ++ sep :: b) = a :: splitCharN sep n b := by
  induction a with
  | nil => simp [splitCharN_cons_sep]
  | cons c rest ih =>
    have hc : c ≠ sep := fun he => h (he ▸ List.mem_cons_self _ _)
    have hrest : sep ∉ rest := fun hm => h (List.mem_cons_of_mem _ hm)
    rw [List.cons_append, splitCharN, if_neg hc, ih hrest]

theorem hasSub_of_mem {c : Char} {l : Str} (h : c ∈ l) :
    hasSub [c] l = true := by
  induction l with
  | nil => cases h
  | cons x rest ih =>
    rw [hasSub]
    rcases List.mem_cons.mp h with h' | h'
    · subst h'; simp [isPre]
    · simp [ih h']

theorem countChar_cons_self (c : Char) (l : Str) :
    countChar c (c :: l) = 1 + countChar c l := by
  simp [countChar]

theorem countChar_append (c : Char) (a b : Str) :
    countChar c (a ++ b) = countChar c a + countChar c b := by
  induction a with
  | nil => simp [countChar]
  | cons x rest ih => rw [List.cons_append, countChar, countChar, ih]; omega

theorem getLast?_append_replicate {n : Nat} (l : Bytes) (h : n ≠ 0) :
    (l ++ List.replicate n n).getLast? = some n := by
  cases n with
  | zero => exact absurd rfl h
  | succ m =>
    rw [List.replicate_succ', ← List.append_assoc, List.getLast?_concat]

theorem establish_session_existing {s : ServiceState} {u1 u2 : Str}
    {k : Bytes} (fresh : Bytes)
    (h : alookup (pairKey u1 u2) s.session_keys = some k) :
    establish_session s u1 u2 fresh = (s, false) := by
  simp [establish_session, h]

/-! ## Claims -/

/-- C2: for every pair of usernames A and B, `establish_session(A, B)`
followed by `establish_session(B, A)` makes the second call return
`false` and leave the whole store (in particular the stored pair key)
unchanged; the canonical pair key is symmetric in its arguments. -/
theorem c2_establish_session_symmetric (s : ServiceState) (A B : Str)
    (k1 k2 : Bytes) :
    pairKey A B = pairKey B A ∧
    (establish_session ((establish_session s A B k1).1) B A k2).2 = false ∧
    (establish_session ((establish_session s A B k1).1) B A k2).1 =
      (establish_session s A B k1).1 := by
  obtain ⟨k, hk⟩ := establish_session_lookup s A B k1
  have hk' : alookup (pairKey B A)
      ((establish_session s A B k1).1).session_keys = some k := by
    rw [pairKey_comm B A]; exact hk
  rw [establish_session_existing k2 hk']
  exact ⟨pairKey_comm A B, rfl, rfl⟩

/-- C3: with no stored pair key for A and B, `encrypt_message` returns
none for every text and `decrypt_message` returns none for every
envelope; both functions are total, so neither can raise. -/
theorem c3_no_session_none (P : CryptoPrims) (s : ServiceState)
    (A B text : Str) (iv : Bytes) (env : EncryptedEnvelope)
    (h : alookup (pairKey A B) s.session_keys = none) :
    encrypt_message P s A B text iv = none ∧
    decrypt_message P s A B env = none := by
  constructor
  · simp [encrypt_message, h]
  · simp [decrypt_message, h]

/-- Witness for C3 at a concrete empty store. -/
theorem c3_no_session_none_witness :
    alookup (pairKey (str "alice") (str "bob")) svc0.session_keys = none ∧
    encrypt_message idPrims svc0 (str "alice") (str "bob") (str "hi")
      (List.replicate 16 0) = none ∧
    decrypt_message idPrims svc0 (str "alice") (str "bob")
      ⟨str "c", str "i", true⟩ = none := by
  refine ⟨rfl, ?_⟩
  have := c3_no_session_none idPrims svc0 (str "alice") (str "bob")
    (str "hi") (List.replicate 16 0) ⟨str "c", str "i", true⟩ rfl
  exact this

/-- C4: `cleanup_session(U)` removes U from the known-user set, leaves
every other user's membership intact, and removes every pair key whose
canonical name includes U. -/
theorem c4_cleanup_session (s : ServiceState) (u : Str) :
    u ∉ (cleanup_session s u).frontend_users ∧
    (∀ v, v ≠ u →
      (v ∈ (cleanup_session s u).frontend_users ↔ v ∈ s.frontend_users)) ∧
    (∀ a b, a = u ∨ b = u →
      alookup (pairKey a b) (cleanup_session s u).session_keys = none) := by
  refine ⟨?_, ?_, ?_⟩
  · by_cases hmem : u ∈ s.frontend_users
    · simp [cleanup_session, hmem, List.mem_filter]
    · simp [cleanup_session, hmem]
  · intro v hv
    by_cases hmem : u ∈ s.frontend_users
    · simp [cleanup_session, hmem, List.mem_filter, hv]
    · simp [cleanup_session, hmem]
  · intro a b hab
    have hsk : (cleanup_session s u).session_keys =
        s.session_keys.filter (fun kv => !namesUser u kv.1) := by
      unfold cleanup_session
      by_cases hmem : u ∈ s.frontend_users <;> simp [hmem]
    rw [hsk]
    exact alookup_filter_not _ _ _ (namesUser_pairKey hab)

/-- Witness for C4 on a store with two users and one pair key. -/
theorem c4_cleanup_session_witness :
    ((str "bob" : Str) ≠ str "alice" ∧
      ((str "alice" : Str) = str "alice" ∨ (str "bob" : Str) = str "alice")) ∧
    ((str "bob" ∈ (cleanup_session
        ⟨[(str "alice_bob", List.replicate 32 0)],
          [str "alice", str "bob"], []⟩ (str "alice")).frontend_users ↔
      str "bob" ∈ [str "alice", str "bob"]) ∧
     alookup (pairKey (str "alice") (str "bob")) (cleanup_session
        ⟨[(str "alice_bob", List.replicate 32 0)],
          [str "alice", str "bob"], []⟩ (str "alice")).session_keys = none) := by
  refine ⟨⟨by decide, Or.inl rfl⟩, ?_, ?_⟩
  · exact (c4_cleanup_session _ (str "alice")).2.1 (str "bob") (by decide)
  · exact (c4_cleanup_session _ (str "alice")).2.2 (str "alice") (str "bob")
      (Or.inl rfl)

/-- C9: every stored session key is a 32-byte secret, and this is
preserved by every key-store operation: `register_user`,
`mark_session_confirmed` and `add_pending_session` leave `session_keys`
unchanged, `establish_session` only ever inserts the fresh 32-byte
`os.urandom(32)` sample, and `cleanup_session` only removes entries
(`encrypt_message`, `decrypt_message`, `get_unencrypted_frontend_users`
and `has_pending_sessions` do not return a modified state in the model
because the source never writes the state in them). -/
theorem c9_session_key_length_invariant (s : ServiceState)
    (n a b u x y : Str) (fresh : Bytes)
    (hs : keyInv s) (hf : fresh.length = 32) :
    keyInv (register_user s n) ∧
    (register_user s n).session_keys = s.session_keys ∧
    keyInv ((establish_session s a b fresh).1) ∧
    keyInv (cleanup_session s u) ∧
    keyInv (mark_session_confirmed s x y) ∧
    (mark_session_confirmed s x y).session_keys = s.session_keys ∧
    keyInv (add_pending_session s x y) ∧
    (add_pending_session s x y).session_keys = s.session_keys := by
  refine ⟨fun p hp => hs p hp, rfl, ?_, ?_, fun p hp => hs p hp, rfl,
    fun p hp => hs p hp, rfl⟩
  · cases h : alookup (pairKey a b) s.session_keys with
    | none =>
      intro p hp
      simp only [establish_session, h] at hp
      rcases mem_aset hp with hp' | hp'
      · rw [hp']; exact hf
      · exact hs p hp'
    | some k =>
      intro p hp
      simp only [establish_session, h] at hp
      exact hs p hp
  · intro p hp
    have hsk : (cleanup_session s u).session_keys =
        s.session_keys.filter (fun kv => !namesUser u kv.1) := by
      unfold cleanup_session
      by_cases hmem : u ∈ s.frontend_users <;> simp [hmem]
    rw [hsk] at hp
    exact hs p (List.mem_filter.mp hp).1

/-- Witness for C9 on a concrete store holding one 32-byte key. -/
theorem c9_session_key_length_invariant_witness :
    keyInv (⟨[(str "alice_bob", List.replicate 32 1)], [str "alice"], []⟩ :
        ServiceState) ∧
    (List.replicate 32 2 : Bytes).length = 32 ∧
    keyInv ((establish_session
      ⟨[(str "alice_bob", List.replicate 32 1)], [str "alice"], []⟩
      (str "bob") (str "carol") (List.replicate 32 2)).1) := by
  refine ⟨?_, by decide, ?_⟩
  · intro p hp
    simp at hp
    rw [hp]
    decide
  · exact (c9_session_key_length_invariant
      ⟨[(str "alice_bob", List.replicate 32 1)], [str "alice"], []⟩
      (str "n") (str "bob") (str "carol") (str "u") (str "x") (str "y")
      (List.replicate 32 2)
      (by intro p hp; simp at hp; rw [hp]; decide) (by decide)).2.2.1

/-- C1: once a session has been established between A and B (in either
argument order, and whether or not a key already existed), encrypting
any plaintext — empty, single-character or any other code-point
sequence — from A to B and decrypting the resulting envelope yields the
plaintext back, for every choice of fresh key and IV and for all
primitives satisfying the library inversion laws. -/
theorem c1_encrypt_decrypt_roundtrip (P : CryptoPrims) (s : ServiceState)
    (A B text : Str) (fresh iv : Bytes) :
    ((encrypt_message P ((establish_session s A B fresh).1) A B text iv).bind
      (decrypt_message P ((establish_session s A B fresh).1) A B)) =
      some text := by
  obtain ⟨k, hk⟩ := establish_session_lookup s A B fresh
  simp only [encrypt_message, hk, decrypt_message, Option.bind]
  simp only [P.b64_round, P.aes_round]
  have hn0 : 16 - (P.utf8Encode text).length % 16 ≠ 0 := by
    have : (P.utf8Encode text).length % 16 < 16 := Nat.mod_lt _ (by omega)
    omega
  rw [getLast?_append_replicate _ hn0]
  simp only [if_neg hn0, List.length_append, List.length_replicate,
    Nat.add_sub_cancel, List.take_left]
  exact P.utf8_round text

/-- C10: `parse_irc_line` counts empty strings produced by splitting on
single spaces as tokens: any line containing a space parses
successfully; `"CMD "` gives prefix `""`, command `"CMD"` and params
`[""]`; consecutive spaces yield empty-string params entries. -/
theorem c10_parse_irc_line_empty_fields :
    (∀ line : Str, ' ' ∈ line → parse_irc_line line ≠ none) ∧
    parse_irc_line (str "CMD ") = some ⟨[], str "CMD", [[]], str "CMD "⟩ ∧
    parse_irc_line (str "A  B") =
      some ⟨[], str "A", [[], str "B"], str "A  B"⟩ := by
  refine ⟨?_, rfl, rfl⟩
  intro line hmem
  have hlen : 2 ≤ (splitChar ' ' line).length := by
    rw [length_splitChar]
    have := countChar_pos hmem
    omega
  rcases hsp : splitChar ' ' line with _ | ⟨p0, _ | ⟨p1, rest⟩⟩
  · exact absurd hsp (splitChar_ne_nil _ _)
  · rw [hsp] at hlen; simp at hlen
  · simp only [parse_irc_line, hsp]
    split <;> simp

/-- Witness for C10 at the line `"CMD "`. -/
theorem c10_parse_irc_line_empty_fields_witness :
    ' ' ∈ str "CMD " ∧ parse_irc_line (str "CMD ") ≠ none :=
  ⟨by decide, c10_parse_irc_line_empty_fields.1 (str "CMD ") (by decide)⟩

/-- C8: `parse_names_list` takes the text after the second `:` (the
empty list when the line has fewer than two colons), splits it on
whitespace, strips leading `@`/`+` markers and drops entries that become
empty; on `":srv 353 n = #c :@op +voice plain"` it returns exactly
`["op", "voice", "plain"]`. -/
theorem c8_parse_names_list :
    (∀ line : Str, countChar ':' line < 2 → parse_names_list line = []) ∧
    (∀ a b payload : Str, ':' ∉ a → ':' ∉ b →
      parse_names_list (a ++ ':' :: (b ++ ':' :: payload)) =
        (splitWs payload).filterMap (fun u =>
          let v := lstripMarks u
          if v = [] then none else some v)) ∧
    parse_names_list (str ":srv 353 n = #c :@op +voice plain") =
      [str "op", str "voice", str "plain"] := by
  refine ⟨?_, ?_, rfl⟩
  · intro line h
    simp [parse_names_list, Nat.not_le.mpr h]
  · intro a b payload ha hb
    have hcount : countChar ':' (a ++ ':' :: (b ++ ':' :: payload)) ≥ 2 := by
      rw [countChar_append, countChar, countChar_append, countChar]
      simp
      omega
    have hsplit : splitCharN ':' 2 (a ++ ':' :: (b ++ ':' :: payload)) =
        a :: b :: [payload] := by
      rw [splitCharN_append 1 _ ha, splitCharN_append 0 _ hb,
        splitCharN_zero]
    simp [parse_names_list, hcount, hsplit]

/-- Witness for C8 on colon-free pieces around two colons. -/
theorem c8_parse_names_list_witness :
    ((':' ∉ str "srv 353 n = #c ") ∧ (':' ∉ ([] : Str))) ∧
    parse_names_list (str "srv 353 n = #c " ++ ':' :: ([] ++ ':' :: str "@op +voice plain")) =
      (splitWs (str "@op +voice plain")).filterMap (fun u =>
        let v := lstripMarks u
        if v = [] then none else some v) :=
  ⟨⟨by decide, by decide⟩,
    c8_parse_names_list.2.1 (str "srv 353 n = #c ") [] (str "@op +voice plain")
      (by decide) (by decide)⟩

/-- A concrete envelope text in exactly the form the program's own
`json.dumps` emits for the wire envelope: `", "` and `": "` separators
and the boolean literal `true`. -/
def envText : Str :=
  str "\x7b\"encrypted_content\": \"x\", \"iv\": \"y\", \"is_encrypted\": true\x7d"

/-- C5 (counterexample to the claim as stated): on a well-formed
`:nick!user@host PRIVMSG target :text` line whose text is an encrypted
envelope as produced by the program itself, the parsed content is the
placeholder `[Encrypted message]`, not the text after the second
colon. -/
theorem c5_counterexample :
    ((parse_irc_line (privmsgWire (str "alice") (str "u") (str "h")
        (str "bob") envText)).map
      fun m => parse_privmsg m.pfx m.params
        (privmsgWire (str "alice") (str "u") (str "h") (str "bob")
          envText)) =
      some ⟨str "alice", str "bob", str "[Encrypted message]", true,
        some [(str "encrypted_content", JValue.jstr (str "x")),
          (str "iv", JValue.jstr (str "y")),
          (str "is_encrypted", JValue.jbool true)]⟩ ∧
    str "[Encrypted message]" ≠ envText :=
  ⟨by decide, by decide⟩

/-- C5 (amended): for every well-formed
`:nick!user@host PRIVMSG target :text` line — nick, user, host and
target free of spaces and colons, nick free of `!` — `parse_privmsg`
applied to the prefix and params of `parse_irc_line` yields
sender = nick and target = target always, and: content = text with no
encryption flag unless the text is detected as an encrypted envelope
(it starts with `{`, contains the substring `encrypted_content`, and
JSON-decodes to an object with both `encrypted_content` and `iv`
keys), in which case content is the fixed placeholder
`[Encrypted message]`, the encrypted flag is set and the decoded
object is attached. -/
theorem c5_parse_privmsg_wellformed
    (nick user host target text : Str)
    (hn1 : ' ' ∉ nick) (hn2 : ':' ∉ nick) (hn3 : '!' ∉ nick)
    (hu1 : ' ' ∉ user) (hu2 : ':' ∉ user)
    (hh1 : ' ' ∉ host) (hh2 : ':' ∉ host)
    (ht1 : ' ' ∉ target) (ht2 : ':' ∉ target) :
    ((parse_irc_line (privmsgWire nick user host target text)).map fun m =>
      parse_privmsg m.pfx m.params (privmsgWire nick user host target text)) =
      some (if envelopeDetected text then
        ⟨nick, target, str "[Encrypted message]", true, jsonLoadsFlat text⟩
      else ⟨nick, target, text, false, none⟩) := by
  have hPns : ' ' ∉ ':' :: (nick ++ '!' :: (user ++ '@' :: host)) :=
    nmem_cons (by decide) (nmem_append hn1
      (nmem_cons (by decide) (nmem_append hu1 (nmem_cons (by decide) hh1))))
  have hsplit : splitChar ' ' (privmsgWire nick user host target text) =
      (':' :: (nick ++ '!' :: (user ++ '@' :: host))) :: str "PRIVMSG" ::
        target :: splitChar ' ' (':' :: text) := by
    unfold privmsgWire
    rw [splitChar_append _ hPns, splitChar_append _ (by decide),
      splitChar_append _ ht1]
  have hparse : parse_irc_line (privmsgWire nick user host target text) =
      some ⟨nick ++ '!' :: (user ++ '@' :: host), str "PRIVMSG",
        target :: splitChar ' ' (':' :: text),
        privmsgWire nick user host target text⟩ := by
    rw [parse_irc_line, hsplit]
    simp [isPre]
  rw [hparse, Option.map_some']
  have hsender : extract_sender (nick ++ '!' :: (user ++ '@' :: host)) =
      nick := by
    unfold extract_sender
    rw [if_pos (hasSub_of_mem (by simp)), splitChar_append _ hn3]
    rfl
  have hmid : ':' ∉ (nick ++ '!' :: (user ++ '@' :: host)) ++
      ' ' :: (str "PRIVMSG" ++ ' ' :: (target ++ [' '])) :=
    nmem_append
      (nmem_append hn2
        (nmem_cons (by decide) (nmem_append hu2 (nmem_cons (by decide) hh2))))
      (nmem_cons (by decide) (nmem_append (by decide)
        (nmem_cons (by decide) (nmem_append ht2 (by decide)))))
  have htail : privmsgWire nick user host target text =
      ':' :: (((nick ++ '!' :: (user ++ '@' :: host)) ++
        ' ' :: (str "PRIVMSG" ++ ' ' :: (target ++ [' ']))) ++ ':' :: text) := by
    unfold privmsgWire
    simp [List.append_assoc]
  have hsplitN : splitCharN ':' 2 (privmsgWire nick user host target text) =
      [[], (nick ++ '!' :: (user ++ '@' :: host)) ++
        ' ' :: (str "PRIVMSG" ++ ' ' :: (target ++ [' '])), text] := by
    rw [htail, splitCharN_cons_sep, splitCharN_append 0 _ hmid,
      splitCharN_zero]
  have hcount : countChar ':' (privmsgWire nick user host target text) ≥ 2 := by
    rw [htail, countChar_cons_self, countChar_append, countChar_cons_self]
    omega
  unfold parse_privmsg
  rw [if_pos hcount, hsplitN]
  simp only [List.getD, List.get?_cons_succ, List.get?_cons_zero,
    Option.getD_some, hsender, List.headD_cons]
  by_cases hg : (isPre ['{'] text &&
      hasSub (str "encrypted_content") text) = true
  · cases hj : jsonLoadsFlat text with
    | none => simp [envelopeDetected, hg, hj]
    | some obj =>
      by_cases hk : (hasKey obj (str "encrypted_content") &&
          hasKey obj (str "iv")) = true
      · simp [envelopeDetected, hg, hj, hk]
      · simp [envelopeDetected, hg, hj, hk]
  · simp [envelopeDetected, hg]

/-- Witness for C5 (amended): the same well-formed line sent once with
plain text (undetected, content passes through) and once with the
`json.dumps`-shaped envelope text (detected, placeholder content and
decoded object attached). -/
theorem c5_parse_privmsg_wellformed_witness :
    ((' ' ∉ str "alice" ∧ ':' ∉ str "alice" ∧ '!' ∉ str "alice") ∧
      (' ' ∉ str "u" ∧ ':' ∉ str "u") ∧ (' ' ∉ str "h" ∧ ':' ∉ str "h") ∧
      (' ' ∉ str "bob" ∧ ':' ∉ str "bob")) ∧
    ((parse_irc_line (privmsgWire (str "alice") (str "u") (str "h")
        (str "bob") (str "hi there"))).map fun m =>
      parse_privmsg m.pfx m.params (privmsgWire (str "alice") (str "u")
        (str "h") (str "bob") (str "hi there"))) =
      some (if envelopeDetected (str "hi there") then
        ⟨str "alice", str "bob", str "[Encrypted message]", true,
          jsonLoadsFlat (str "hi there")⟩
      else ⟨str "alice", str "bob", str "hi there", false, none⟩) ∧
    ((parse_irc_line (privmsgWire (str "alice") (str "u") (str "h")
        (str "bob") envText)).map fun m =>
      parse_privmsg m.pfx m.params (privmsgWire (str "alice") (str "u")
        (str "h") (str "bob") envText)) =
      some (if envelopeDetected envText then
        ⟨str "alice", str "bob", str "[Encrypted message]", true,
          jsonLoadsFlat envText⟩
      else ⟨str "alice", str "bob", envText, false, none⟩) :=
  ⟨⟨⟨by decide, by decide, by decide⟩, ⟨by decide, by decide⟩,
    ⟨by decide, by decide⟩, ⟨by decide, by decide⟩⟩,
    c5_parse_privmsg_wellformed (str "alice") (str "u") (str "h")
      (str "bob") (str "hi there") (by decide) (by decide) (by decide)
      (by decide) (by decide) (by decide) (by decide) (by decide)
      (by decide),
    c5_parse_privmsg_wellformed (str "alice") (str "u") (str "h")
      (str "bob") envText (by decide) (by decide) (by decide)
      (by decide) (by decide) (by decide) (by decide) (by decide)
      (by decide)⟩

theorem setup_encryption_connected (svc : ServiceState) (b : BridgeState)
    (n d : Str) :
    (setup_encryption_for_user svc b n d).2.connected = b.connected := by
  by_cases h : get_unencrypted_frontend_users (register_user svc n) n = [] <;>
    simp [setup_encryption_for_user, h, send_to_client]

theorem setup_encryption_reader_task (svc : ServiceState) (b : BridgeState)
    (n d : Str) :
    (setup_encryption_for_user svc b n d).2.reader_task = b.reader_task := by
  by_cases h : get_unencrypted_frontend_users (register_user svc n) n = [] <;>
    simp [setup_encryption_for_user, h, send_to_client]

/-- C6 (amended): when `connect_to_irc` fails at socket creation or at
the TCP connect — the only steps whose exception reaches its handler —
on a session in `Idle` (connected false, no reader task), it returns
false, sends an error event to the client as its last event, and leaves
`connected` false with no read-loop task started; a handshake send
failure is swallowed by `send_irc_raw` and never fails the connect (see
the counterexample). -/
theorem c6_connect_failure_stays_idle (svc : ServiceState) (b : BridgeState)
    (server : Str) (port : Nat) (channel nickname dev : Str) (ifu : Bool)
    (f : Faults) (hc : b.connected = false) (hr : b.reader_task = false)
    (hf : f.socketCreateFails = true ∨ f.socketConnectFails = true) :
    (connect_to_irc svc b server port channel nickname ifu dev f).2.2 =
      false ∧
    (connect_to_irc svc b server port channel nickname ifu dev
      f).2.1.connected = false ∧
    (connect_to_irc svc b server port channel nickname ifu dev
      f).2.1.reader_task = false ∧
    (connect_to_irc svc b server port channel nickname ifu dev
      f).2.1.clientLog.getLast? = some ClientEvent.error := by
  simp only [connect_to_irc]
  set bu := update_connection_params b server port channel nickname ifu
    with hbu
  set p := if ifu = true then setup_encryption_for_user svc bu nickname dev
           else (svc, bu) with hp
  have hpc : p.2.connected = false := by
    rw [hp]
    by_cases hifu : ifu = true <;>
      simp [hifu, setup_encryption_connected, hbu, update_connection_params,
        hc]
  have hpr : p.2.reader_task = false := by
    rw [hp]
    by_cases hifu : ifu = true <;>
      simp [hifu, setup_encryption_reader_task, hbu,
        update_connection_params, hr]
  have hcreate : create_irc_socket p.2 f =
      (if f.socketCreateFails = true then p.2
       else { p.2 with irc_socket := true }, false) := by
    by_cases hcr : f.socketCreateFails = true
    · simp [create_irc_socket, hcr]
    · have hco : f.socketConnectFails = true := by
        rcases hf with hf' | hf'
        · exact absurd hf' hcr
        · exact hf'
      simp [create_irc_socket, hcr, hco]
  rw [hcreate]
  by_cases hcr : f.socketCreateFails = true <;>
    simp [hcr, send_to_client, List.getLast?_concat, hpc, hpr]

/-- C6 (counterexample to the claim as stated): a failure at the
handshake step — every socket send raises while creation and connect
succeed, so nothing reaches the wire — does not make `connect_to_irc`
fail: it still returns true, marks the session connected (Active) with
a reader task, and reports no error event. -/
theorem c6_counterexample :
    (connect_to_irc svc0 b0 (str "irc.example") 6667 (str "#geh")
      (str "alice") true (str "alice_1") ⟨false, false, true⟩).2.2 = true ∧
    (connect_to_irc svc0 b0 (str "irc.example") 6667 (str "#geh")
      (str "alice") true (str "alice_1")
      ⟨false, false, true⟩).2.1.connected = true ∧
    (connect_to_irc svc0 b0 (str "irc.example") 6667 (str "#geh")
      (str "alice") true (str "alice_1")
      ⟨false, false, true⟩).2.1.reader_task = true ∧
    ClientEvent.error ∉ (connect_to_irc svc0 b0 (str "irc.example") 6667
      (str "#geh") (str "alice") true (str "alice_1")
      ⟨false, false, true⟩).2.1.clientLog ∧
    (connect_to_irc svc0 b0 (str "irc.example") 6667 (str "#geh")
      (str "alice") true (str "alice_1")
      ⟨false, false, true⟩).2.1.wireLog = [] := by
  decide

/-- Witness for C6 (amended) on a concrete Idle session whose socket
creation fails. -/
theorem c6_connect_failure_stays_idle_witness :
    (b0.connected = false ∧ b0.reader_task = false ∧
      ((⟨true, false, false⟩ : Faults).socketCreateFails = true ∨
        (⟨true, false, false⟩ : Faults).socketConnectFails = true)) ∧
    ((connect_to_irc svc0 b0 (str "irc.example") 6667 (str "#geh")
        (str "alice") true (str "alice_1") ⟨true, false, false⟩).2.2 =
      false ∧
     (connect_to_irc svc0 b0 (str "irc.example") 6667 (str "#geh")
        (str "alice") true (str "alice_1")
        ⟨true, false, false⟩).2.1.connected = false ∧
     (connect_to_irc svc0 b0 (str "irc.example") 6667 (str "#geh")
        (str "alice") true (str "alice_1")
        ⟨true, false, false⟩).2.1.reader_task = false ∧
     (connect_to_irc svc0 b0 (str "irc.example") 6667 (str "#geh")
        (str "alice") true (str "alice_1")
        ⟨true, false, false⟩).2.1.clientLog.getLast? =
       some ClientEvent.error) :=
  ⟨⟨rfl, rfl, Or.inl rfl⟩,
    c6_connect_failure_stays_idle svc0 b0 (str "irc.example") 6667
      (str "#geh") (str "alice") (str "alice_1") true
      ⟨true, false, false⟩ rfl rfl (Or.inl rfl)⟩

/-- C7: a message command whose target starts with `@` goes out on the
wire as `PRIVMSG nick :...` with the `@` stripped, in both the
encrypted-relay branch and the plain branch (the payload below is the
relayed envelope exactly when the client flagged the message encrypted,
supplied an envelope and the stripped target is private). -/
theorem c7_handle_message_strips_at (b : BridgeState) (f : Faults)
    (d : MessageData) (rest : Str)
    (hc : b.connected = true) (hsock : b.irc_socket = true)
    (hsend : f.socketSendFails = false)
    (ht : d.target = some ('@' :: rest)) :
    (handle_message b f d).wireLog = b.wireLog ++
      [privmsgLine rest
        (if d.is_encrypted && d.encrypted_data.isSome &&
            decide (rest ≠ b.channel)
         then d.encrypted_data.getD [] else d.content)] := by
  simp only [handle_message, ht, Option.getD_some, hc]
  simp [send_irc_raw, hsock, hsend, send_to_client]
  split_ifs with h <;> simp

/-- Witness for C7 on an Active session sending to `"@bob"`. -/
theorem c7_handle_message_strips_at_witness :
    (bActive.connected = true ∧ bActive.irc_socket = true ∧
      noFaults.socketSendFails = false ∧
      (⟨some (str "@bob"), str "hi", false, none⟩ :
        MessageData).target = some ('@' :: str "bob")) ∧
    (handle_message bActive noFaults
      ⟨some (str "@bob"), str "hi", false, none⟩).wireLog =
      bActive.wireLog ++
      [privmsgLine (str "bob")
        (if (⟨some (str "@bob"), str "hi", false, none⟩ :
              MessageData).is_encrypted &&
            (⟨some (str "@bob"), str "hi", false, none⟩ :
              MessageData).encrypted_data.isSome &&
            decide (str "bob" ≠ bActive.channel)
         then (⟨some (str "@bob"), str "hi", false, none⟩ :
            MessageData).encrypted_data.getD []
         else (⟨some (str "@bob"), str "hi", false, none⟩ :
            MessageData).content)] :=
  ⟨⟨rfl, rfl, rfl, by decide⟩,
    c7_handle_message_strips_at bActive noFaults
      ⟨some (str "@bob"), str "hi", false, none⟩ (str "bob")
      rfl rfl rfl (by decide)⟩

end GehChat
